import Mathlib

/-!
# oauth2more: credential envelopes, the multi-service manager and the provider registry

A shallow embedding of `oauth2more.go` and `multiservice/multiservice.go`.

Conventions of the embedding.

* A Go `string` is a `String`; `[]byte` is a `List UInt8`; a Go `error` is its message.
* A Go result `(*T, error)` is the pair `Option T × Option Error`, `none` standing for `nil`.
* A function that may `panic` returns an `Outcome`.
* Declarations of other packages (the standard library, `golang.org/x/oauth2`) and
  declarations of this repository that are not among the sources are parameters of the
  functions that use them.
-/

/-- A Go `error` value, identified with its message. -/
abbrev Error := String

/-- A Go byte slice. -/
abbrev Bytes := List UInt8

namespace oauth2

/-- The type `oauth2.Endpoint` of `golang.org/x/oauth2` (the two fields used here). -/
structure Endpoint where
  AuthURL : String
  TokenURL : String
  deriving Repr, DecidableEq, Inhabited

/-- The type `oauth2.Config` of `golang.org/x/oauth2`. -/
structure Config where
  ClientID : String
  ClientSecret : String
  Endpoint : Endpoint
  RedirectURL : String
  Scopes : List String
  deriving Repr, DecidableEq, Inhabited

end oauth2

namespace oauth2more

/-- The result of a call that either returns normally or panics with an error value. -/
inductive Outcome (α : Type) where
  | returned (a : α)
  | panicked (e : Error)
  deriving Repr, DecidableEq

/-- The Go type `AppCredentials` (oauth2more.go, lines 99-107). -/
structure AppCredentials where
  Service : String
  ClientID : String
  ClientSecret : String
  RedirectURIs : List String
  AuthURI : String
  TokenURI : String
  Scopes : List String
  deriving Repr, DecidableEq, Inhabited

/-- The Go builtin `len` on a string: its length in bytes. -/
def len (s : String) : Nat := s.utf8ByteSize

/-- The method `(*AppCredentials).Defaultify` (oauth2more.go, lines 109-122). The package
variable `facebook.Endpoint` of `golang.org/x/oauth2/facebook` is the parameter `endpoint`;
the receiver is updated in place, so the updated value is returned. -/
def AppCredentials.Defaultify (endpoint : oauth2.Endpoint) (ac : AppCredentials) : AppCredentials :=
  if ac.Service = "facebook" then
    if len ac.AuthURI = 0 ∨ len ac.TokenURI = 0 then
      let ac1 := if len ac.AuthURI = 0 then { ac with AuthURI := endpoint.AuthURL } else ac
      let ac2 := if len ac1.TokenURI = 0 then { ac1 with TokenURI := endpoint.TokenURL } else ac1
      ac2
    else ac
  else ac

/-- The method `(*AppCredentials).Config` (oauth2more.go, lines 151-164). -/
def AppCredentials.Config (c : AppCredentials) : oauth2.Config :=
  let cfg : oauth2.Config :=
    { ClientID := c.ClientID
      ClientSecret := c.ClientSecret
      Scopes := c.Scopes
      Endpoint := { AuthURL := c.AuthURI, TokenURL := c.TokenURI }
      RedirectURL := "" }
  match c.RedirectURIs with
  | r :: _ => { cfg with RedirectURL := r }
  | [] => cfg

/-- The Go type `AppCredentialsWrapper` (oauth2more.go, lines 124-127); a nil pointer is
`none`. -/
structure AppCredentialsWrapper where
  Web : Option AppCredentials
  Installed : Option AppCredentials
  deriving Repr, DecidableEq, Inhabited

/-- The method `(*AppCredentialsWrapper).Config` (oauth2more.go, lines 129-140): the Go
result pair. -/
def AppCredentialsWrapper.Config (endpoint : oauth2.Endpoint) (w : AppCredentialsWrapper) :
    Option oauth2.Config × Option Error :=
  match w.Web with
  | some c => (some (c.Defaultify endpoint).Config, none)
  | none =>
    match w.Installed with
    | some c => (some (c.Defaultify endpoint).Config, none)
    | none => (none, some "No OAuth2 config info")

/-- The envelope as `(*AppCredentialsWrapper).Config` leaves it: `Defaultify` runs on the
selected shape through its pointer, so the envelope holds the defaulted shape afterwards. -/
def AppCredentialsWrapper.afterConfig (endpoint : oauth2.Endpoint) (w : AppCredentialsWrapper) :
    AppCredentialsWrapper :=
  match w.Web with
  | some c => { w with Web := some (c.Defaultify endpoint) }
  | none =>
    match w.Installed with
    | some c => { w with Installed := some (c.Defaultify endpoint) }
    | none => w

/-- The function `json.Unmarshal` of `encoding/json` at the type `*AppCredentialsWrapper`:
from the bytes and the value the pointer holds, the value it holds afterwards and the
error. -/
abbrev Unmarshal := Bytes → AppCredentialsWrapper → AppCredentialsWrapper × Option Error

/-- The function `NewAppCredentialsWrapperFromBytes` (oauth2more.go, lines 142-149);
`var acw AppCredentialsWrapper` is the zero value, both pointers nil. -/
def NewAppCredentialsWrapperFromBytes (unmarshal : Unmarshal) (data : Bytes) :
    Outcome (AppCredentialsWrapper × Option Error) :=
  let acw0 : AppCredentialsWrapper := { Web := none, Installed := none }
  let (acw, err) := unmarshal data acw0
  match err with
  | some e => .panicked e
  | none => .returned (acw, err)

/-- The Go type `AuthorizationType` (oauth2more.go, line 29), an `int`. -/
abbrev AuthorizationType := Int

/-- The constant `Anonymous` (oauth2more.go, lines 31-39): `iota` counts from 0. -/
def Anonymous : AuthorizationType := 0

/-- The constant `Basic`. -/
def Basic : AuthorizationType := 1

/-- The constant `Bearer`. -/
def Bearer : AuthorizationType := 2

/-- The constant `Digest`. -/
def Digest : AuthorizationType := 3

/-- The constant `NTLM`. -/
def NTLM : AuthorizationType := 4

/-- The constant `Negotiate`. -/
def Negotiate : AuthorizationType := 5

/-- The constant `OAuth`. -/
def OAuth : AuthorizationType := 6

/-- The array `authorizationTypes` (oauth2more.go, lines 41-49). -/
def authorizationTypes : List String :=
  ["Anonymous", "Basic", "Bearer", "Digest", "NTLM", "Negotiate", "OAuth"]

/-- The `for v > 0` statement of `fmtInt` (oauth2more.go, lines 69-73), run for at most
`fuel` rounds: the buffer and the index `w` it leaves. -/
def fmtInt.loop : Nat → Bytes → Nat → Nat → Bytes × Nat
  | 0, buf, w, _ => (buf, w)
  | fuel + 1, buf, w, v =>
    if v > 0 then
      let w1 := w - 1
      fmtInt.loop fuel (buf.set w1 (UInt8.ofNat (v % 10) + 48)) w1 (v / 10)
    else (buf, w)

/-- The function `fmtInt` (oauth2more.go, lines 63-76) on an unsigned 64-bit `v`: the
buffer as the call leaves it and the index where the output begins. A value below `2 ^ 64`
has at most 20 digits, so 20 rounds of the loop are enough. -/
def fmtInt (buf : Bytes) (v : Nat) : Bytes × Nat :=
  let w := buf.length
  if v = 0 then
    let w1 := w - 1
    (buf.set w1 48, w1)
  else fmtInt.loop 20 buf w v

/-- The conversion `string(b)` of a byte slice that holds ASCII characters. -/
def stringOfBytes (b : Bytes) : String := String.mk (b.map (fun x => Char.ofNat x.toNat))

/-- The method `AuthorizationType.String` (oauth2more.go, lines 52-59). The conversion
`uint64(a)` is the residue of `a` modulo `2 ^ 64`; `make([]byte, 20)` is twenty zero bytes;
an index outside the array would panic. -/
def AuthorizationType.String (a : AuthorizationType) : Outcome String :=
  if Basic ≤ a ∧ a ≤ OAuth then
    match authorizationTypes.get? a.toNat with
    | some name => .returned name
    | none => .panicked "runtime error: index out of range"
  else
    let buf : Bytes := List.replicate 20 0
    let (buf1, n) := fmtInt buf (a % 2 ^ 64).toNat
    .returned ("%!AuthorizationType(" ++ stringOfBytes (buf1.drop n) ++ ")")

end oauth2more

namespace oauth2

/-- The type `oauth2.Token` of `golang.org/x/oauth2`; the expiry time is kept as a number
of seconds. -/
structure Token where
  AccessToken : String
  TokenType : String
  RefreshToken : String
  Expiry : Int
  deriving Repr, DecidableEq, Inhabited

/-- The `*http.Client` that `(*oauth2.Config).Client(ctx, t)` builds, identified with the
three values it is built from. -/
structure Client (Ctx : Type) where
  config : Config
  ctx : Ctx
  token : Option Token
  deriving Repr, DecidableEq

/-- The method `(*oauth2.Config).Client` of `golang.org/x/oauth2`. -/
def Config.Client {Ctx : Type} (c : Config) (ctx : Ctx) (t : Option Token) : Client Ctx :=
  { config := c, ctx := ctx, token := t }

end oauth2

namespace unicode

/-- The function `unicode.IsSpace`: the code points with the Unicode property White_Space. -/
def IsSpace (c : Char) : Bool :=
  let n := c.toNat
  (0x09 ≤ n && n ≤ 0x0d) || n == 0x20 || n == 0x85 || n == 0xa0 || n == 0x1680 ||
    (0x2000 ≤ n && n ≤ 0x200a) || n == 0x2028 || n == 0x2029 || n == 0x202f ||
    n == 0x205f || n == 0x3000

end unicode

namespace strings

/-- The function `strings.TrimSpace`: the string without its leading and trailing white
space. -/
def TrimSpace (s : String) : String :=
  String.mk ((s.data.dropWhile unicode.IsSpace).reverse.dropWhile unicode.IsSpace).reverse

end strings

namespace regexp

/-- The two functions of package `regexp` that the sources call, for a type `R` of compiled
expressions: `Compile` yields an expression or an error, `FindStringSubmatch` the slice of
the leftmost match and its groups, empty (nil) when there is no match. -/
structure Package (R : Type) where
  Compile : String → Except Error R
  FindStringSubmatch : R → String → List String

/-- The rest of `s` after the literal text `lit`, when `s` starts with it. -/
def afterLiteral : List Char → List Char → Option (List Char)
  | [], s => some s
  | _ :: _, [] => none
  | a :: lit, b :: s => if a = b then afterLiteral lit s else none

/-- What `FindStringSubmatch` yields on `s` for the expression `^lit(.*)` when `lit` is
plain literal text (no metacharacter): a match exactly when `s` starts with `lit`, and then
the group is the rest of `s` up to its first line feed, which `.` does not match. -/
def literalFind (lit s : String) : List String :=
  match afterLiteral lit.data s.data with
  | some rest =>
    let g := rest.takeWhile (fun c => c != '\n')
    [String.mk (lit.data ++ g), String.mk g]
  | none => []

end regexp

namespace osutil

/-- The type `osutil.EnvVar` of `github.com/grokify/simplego/os/osutil`. -/
structure EnvVar where
  Key : String
  Value : String
  deriving Repr, DecidableEq, Inhabited

end osutil

namespace multiservice

open oauth2more

/-- The conversion `[]byte(s)` of a string: its UTF-8 bytes. -/
def bytes (s : String) : Bytes := (s.data.map String.utf8EncodeChar).flatten

/-- The declarations of `ConfigMoreSet` that `multiservice.go` uses and that are not among
the sources, over a type `S` of stores and a type `CM` of entries. A store is a pointer in
Go: `AddConfigMoreJson` yields the store as the call leaves it, with its error. `Get` yields
an entry or an error. -/
structure ConfigMoreSetDecls (S CM : Type) where
  NewConfigMoreSet : S
  AddConfigMoreJson : S → String → Bytes → S × Option Error
  Get : S → String → Except Error CM
  Config : CM → oauth2.Config

/-- A value of the interface type `tokens.TokenSet`: its method `GetToken`, with the Go
result pair. -/
structure TokenSet where
  GetToken : String → Option oauth2.Token × Option Error

/-- The Go type `OAuth2Manager` (multiservice.go, lines 21-24); an unset (nil) store is
`none`. -/
structure OAuth2Manager (S : Type) where
  ConfigSet : Option S
  TokenSet : Option TokenSet

/-- A lookup on one of the two stores of a manager. -/
inductive StoreCall where
  | Get (serviceKey : String)
  | GetToken (serviceKey : String)
  deriving Repr, DecidableEq

/-- The method `(*OAuth2Manager).GetClient` (multiservice.go, lines 33-51): the Go result
pair, and the store lookups the call performs, in order. -/
def OAuth2Manager.GetClient {S CM Ctx : Type} (d : ConfigMoreSetDecls S CM)
    (cb : OAuth2Manager S) (ctx : Ctx) (serviceKey : String) :
    (Option (oauth2.Client Ctx) × Option Error) × List StoreCall :=
  match cb.ConfigSet with
  | none => ((none, some "OAuth2Manager.ConfigSet == nil"), [])
  | some configSet =>
    match cb.TokenSet with
    | none => ((none, some "OAuth2Manager.TokenSet == nil"), [])
    | some tokenSet =>
      match d.Get configSet serviceKey with
      | .error err => ((none, some err), [StoreCall.Get serviceKey])
      | .ok cfgMore =>
        let cfg := d.Config cfgMore
        let (tok, err) := tokenSet.GetToken serviceKey
        match err with
        | some err => ((none, some err), [StoreCall.Get serviceKey, StoreCall.GetToken serviceKey])
        | none =>
          ((some (cfg.Client ctx tok), none),
            [StoreCall.Get serviceKey, StoreCall.GetToken serviceKey])

/-- The `for` statement of `EnvOAuth2ConfigMap` (multiservice.go, lines 69-81) over the
pairs still to visit, from the store `cfgs` as it stands, followed by the final `return`.
The index expression `m[1]` panics when `m` has a single element. -/
def EnvOAuth2ConfigMap.range {R S CM : Type} (re : regexp.Package R)
    (d : ConfigMoreSetDecls S CM) (rx : R) :
    List osutil.EnvVar → S → Outcome (Option S × Option Error)
  | [], cfgs => .returned (some cfgs, none)
  | pair :: env, cfgs =>
    let key := strings.TrimSpace pair.Key
    let val := pair.Value
    let m := re.FindStringSubmatch rx key
    if m.length > 0 then
      match m.get? 1 with
      | none => .panicked "runtime error: index out of range [1] with length 1"
      | some key =>
        let (cfgs, err) := d.AddConfigMoreJson cfgs key (bytes val)
        match err with
        | some err => .returned (none, some err)
        | none => EnvOAuth2ConfigMap.range re d rx env cfgs
    else EnvOAuth2ConfigMap.range re d rx env cfgs

/-- The function `EnvOAuth2ConfigMap` (multiservice.go, lines 61-82); the expression
`fmt.Sprintf("^%v(.*)", pfx)` is the concatenation below. -/
def EnvOAuth2ConfigMap {R S CM : Type} (re : regexp.Package R) (d : ConfigMoreSetDecls S CM)
    (env : List osutil.EnvVar) (pfx : String) : Outcome (Option S × Option Error) :=
  let cfgs := d.NewConfigMoreSet
  match re.Compile ("^" ++ pfx ++ "(.*)") with
  | .error err => .returned (none, some err)
  | .ok rx => EnvOAuth2ConfigMap.range re d rx env cfgs

/-- The declarations of the provider enumeration that `multiservice.go` uses and that are
not among the sources, over the type `P` of `OAuth2Provider`: its four constants, its
`String` method and the lookup `ProviderStringToConst` with its Go result pair. -/
structure ProviderDecls (P : Type) where
  Aha : P
  Facebook : P
  Google : P
  RingCentral : P
  ProviderStringToConst : String → P × Option Error
  String : P → String

/-- The values of the interface `oauth2more.OAuth2Util` that the registry returns: a pointer
to a fresh `ClientUtil` of package `aha`, `facebook`, `google` or `ringcentral`. -/
inductive OAuth2Util where
  | ahaClientUtil
  | facebookClientUtil
  | googleClientUtil
  | ringcentralClientUtil
  deriving Repr, DecidableEq

/-- The function `NewClientUtilForProviderType` (multiservice.go, lines 84-97); the cases of
the `switch` are tried in order. -/
def NewClientUtilForProviderType {P : Type} [DecidableEq P] (d : ProviderDecls P)
    (providerType : P) : Option OAuth2Util × Option Error :=
  if providerType = d.Aha then (some .ahaClientUtil, none)
  else if providerType = d.Facebook then (some .facebookClientUtil, none)
  else if providerType = d.Google then (some .googleClientUtil, none)
  else if providerType = d.RingCentral then (some .ringcentralClientUtil, none)
  else (none, some ("Cannot find ClientUtil for provider type [" ++ d.String providerType ++ "]"))

/-- The function `NewClientUtilForProviderTypeString` (multiservice.go, lines 99-105). -/
def NewClientUtilForProviderTypeString {P : Type} [DecidableEq P] (d : ProviderDecls P)
    (providerTypeString : String) : Option OAuth2Util × Option Error :=
  let (providerType, err) := d.ProviderStringToConst providerTypeString
  match err with
  | some _ => (some .ringcentralClientUtil, none)
  | none => NewClientUtilForProviderType d providerType

end multiservice

namespace multiservice

open oauth2more

/-- Modelled from the spec: the entry type of `ConfigMoreSet`, whose declaration is not
among the sources; section 3 has it as a "parsed config object capable of producing an OAuth2
configuration", so an entry holds the configuration it produces. -/
structure ConfigMore where
  config : oauth2.Config
  deriving Repr, DecidableEq

/-- Modelled from the spec: the method `Config` of an entry, not among the sources. -/
def ConfigMore.Config (cm : ConfigMore) : oauth2.Config := cm.config

/-- Modelled from the spec: the type `ConfigMoreSet`, whose declaration is not among the
sources; section 3 has it as a mapping from service key to entry with unique keys. -/
structure ConfigMoreSet where
  ConfigMoresMap : String → Option ConfigMore

/-- Modelled from the spec: the constructor `NewConfigMoreSet`, not among the sources; the
empty mapping. -/
def NewConfigMoreSet : ConfigMoreSet := { ConfigMoresMap := fun _ => none }

/-- Modelled from the spec: the method `Get` of `ConfigMoreSet`, not among the sources;
section 4.2: "fails with `NotFoundError` if key absent". -/
def ConfigMoreSet.Get (cfgs : ConfigMoreSet) (key : String) : Except Error ConfigMore :=
  match cfgs.ConfigMoresMap key with
  | some cm => .ok cm
  | none => .error "NotFoundError"

/-- Modelled from the spec: the parsing step of `AddConfigMoreFromJSON`, not among the
sources; section 4.2: "parses bytes into the wrapper envelope (`web`/`installed`), fails with
`MalformedCredentialsError` on decode failure or `MissingCredentialsError` if neither shape
present; applies per-service defaulting". -/
def NewConfigMoreFromJSON (unmarshal : Unmarshal) (endpoint : oauth2.Endpoint) (val : Bytes) :
    Option ConfigMore × Option Error :=
  let (acw, err) := unmarshal val { Web := none, Installed := none }
  match err with
  | some err => (none, some err)
  | none =>
    match acw.Config endpoint with
    | (some cfg, none) => (some { config := cfg }, none)
    | (_, err) => (none, err)

/-- Modelled from the spec: the method `AddConfigMoreJson` of `ConfigMoreSet` (the spec's
`AddConfigMoreFromJSON`), not among the sources; section 4.2: "stores under `key`,
overwriting any prior value for that key", and section 7: on an error "the store is left
unchanged". -/
def ConfigMoreSet.AddConfigMoreJson (unmarshal : Unmarshal) (endpoint : oauth2.Endpoint)
    (cfgs : ConfigMoreSet) (key : String) (val : Bytes) : ConfigMoreSet × Option Error :=
  match NewConfigMoreFromJSON unmarshal endpoint val with
  | (some cm, none) =>
    ({ ConfigMoresMap := fun k => if k = key then some cm else cfgs.ConfigMoresMap k }, none)
  | (_, err) => (cfgs, err)

/-- Modelled from the spec: the declarations of `ConfigMoreSet` that are not among the
sources, gathered from the definitions above. -/
def configMoreSetDecls (unmarshal : Unmarshal) (endpoint : oauth2.Endpoint) :
    ConfigMoreSetDecls ConfigMoreSet ConfigMore :=
  { NewConfigMoreSet := NewConfigMoreSet
    AddConfigMoreJson := ConfigMoreSet.AddConfigMoreJson unmarshal endpoint
    Get := ConfigMoreSet.Get
    Config := ConfigMore.Config }

/-- The key under which `EnvOAuth2ConfigMap` stores the pair with key `key` when the prefix
`pfx` is plain literal text: the key is trimmed, has to start with `pfx`, and what follows
`pfx` up to the first line feed is the store key. -/
def storeKey (pfx key : String) : Option String :=
  (regexp.literalFind pfx (strings.TrimSpace key)).get? 1

end multiservice

namespace facebook

/-- The package variable `Endpoint` of `golang.org/x/oauth2/facebook`, as released. Only
the examples below use it; the theorems hold for every value. -/
def Endpoint : oauth2.Endpoint :=
  { AuthURL := "https://www.facebook.com/v3.2/dialog/oauth"
    TokenURL := "https://graph.facebook.com/v3.2/oauth/access_token" }

end facebook

namespace examples

open oauth2more

/-- A Facebook credential without endpoint addresses. -/
def facebookBare : AppCredentials :=
  { Service := "facebook", ClientID := "id", ClientSecret := "secret", RedirectURIs := [],
    AuthURI := "", TokenURI := "", Scopes := ["email"] }

/-- The installed-application credential of the scenario of section 8 of the spec. -/
def installedX : AppCredentials :=
  { Service := "", ClientID := "X", ClientSecret := "Y", RedirectURIs := [],
    AuthURI := "https://a", TokenURI := "https://b", Scopes := ["s1"] }

/-- A web credential with a redirect address. -/
def webW : AppCredentials :=
  { Service := "", ClientID := "W", ClientSecret := "Z", RedirectURIs := ["https://r"],
    AuthURI := "https://c", TokenURI := "https://d", Scopes := ["s2"] }


/-- The credentials document of the scenario of section 8 of the spec. -/
def googleCreds : String :=
  "\x7b\"installed\":\x7b\"client_id\":\"X\",\"client_secret\":\"Y\",\"auth_uri\":\"https://a\",\"token_uri\":\"https://b\",\"scopes\":[\"s1\"]\x7d\x7d"

/-- A document that ends after its opening brace. -/
def truncated : String := "\x7b"

/-- A sample of `json.Unmarshal`: what `encoding/json` does on the two documents above. On
`googleCreds` it sets `installed` and leaves `web` as it was; on `truncated` it reports the
syntax error and leaves the value as it was. The examples call it on these two documents
only; on any other input this sample reports an error. -/
def unmarshal : Unmarshal := fun data acw =>
  if data = multiservice.bytes googleCreds then
    ({ acw with Installed := some installedX }, none)
  else if data = multiservice.bytes truncated then
    (acw, some "unexpected end of JSON input")
  else (acw, some "document outside the sample")

/-- The metacharacters of the expressions of package `regexp`. -/
def metacharacters : List Char :=
  ['\\', '.', '+', '*', '?', '(', ')', '|', '[', ']', '\x7b', '\x7d', '^', '$']

/-- A sample of package `regexp` for the expressions `^lit(.*)` in which `lit` is plain
literal text; any other expression is outside the sample and reported as an error. -/
def regexpPackage : regexp.Package String :=
  { Compile := fun expr =>
      match regexp.afterLiteral ['^'] expr.data with
      | none => .error "expression outside the sample"
      | some rest =>
        match regexp.afterLiteral [')', '*', '.', '('] rest.reverse with
        | none => .error "expression outside the sample"
        | some lit =>
          if lit.all (fun c => !(metacharacters.contains c)) then .ok (String.mk lit.reverse)
          else .error "expression outside the sample"
    FindStringSubmatch := regexp.literalFind }

/-- The store declarations modelled from the spec, with the sample decoder and the released
Facebook endpoint. -/
def decls : multiservice.ConfigMoreSetDecls multiservice.ConfigMoreSet multiservice.ConfigMore :=
  multiservice.configMoreSetDecls unmarshal facebook.Endpoint

/-- A token store without any token. -/
def noToken : multiservice.TokenSet :=
  { GetToken := fun _ => (none, some "token not found") }

/-- A config store with the credential of section 8 under the service key "svc". -/
def oneConfig : multiservice.ConfigMoreSet :=
  (multiservice.ConfigMoreSet.AddConfigMoreJson unmarshal facebook.Endpoint
    multiservice.NewConfigMoreSet "svc" (multiservice.bytes googleCreds)).1

/-- A provider enumeration in the manner of `ServiceType` (oauth2more.go, lines 82-89):
Google, Facebook, RingCentral and Aha are 0 to 3, with a lookup by lower-case name. -/
def providerDecls : multiservice.ProviderDecls Nat :=
  { Aha := 3
    Facebook := 1
    Google := 0
    RingCentral := 2
    ProviderStringToConst := fun name =>
      if name = "google" then (0, none)
      else if name = "facebook" then (1, none)
      else if name = "ringcentral" then (2, none)
      else if name = "aha" then (3, none)
      else (0, some "provider not found")
    String := fun p => toString p }

end examples

namespace oauth2more

theorem utf8ByteSize_go_eq_zero (cs : List Char) :
    String.utf8ByteSize.go cs = 0 ↔ cs = [] := by
  cases cs with
  | nil => simp [String.utf8ByteSize.go]
  | cons c cs =>
    have := Char.utf8Size_pos c
    simp [String.utf8ByteSize.go]
    omega

theorem len_eq_zero_iff (s : String) : len s = 0 ↔ s = "" := by
  cases s with
  | mk cs =>
    show String.utf8ByteSize.go cs = 0 ↔ _
    rw [utf8ByteSize_go_eq_zero]
    constructor
    · intro h; subst h; rfl
    · intro h; exact congrArg String.data h

/-! ## Credential envelopes -/

theorem AppCredentials.Defaultify_AuthURI (endpoint : oauth2.Endpoint) (ac : AppCredentials) :
    (ac.Defaultify endpoint).AuthURI =
      if ac.Service = "facebook" ∧ ac.AuthURI = "" then endpoint.AuthURL else ac.AuthURI := by
  unfold AppCredentials.Defaultify
  simp only [len_eq_zero_iff]
  split_ifs <;> simp_all

theorem AppCredentials.Defaultify_TokenURI (endpoint : oauth2.Endpoint) (ac : AppCredentials) :
    (ac.Defaultify endpoint).TokenURI =
      if ac.Service = "facebook" ∧ ac.TokenURI = "" then endpoint.TokenURL else ac.TokenURI := by
  unfold AppCredentials.Defaultify
  simp only [len_eq_zero_iff]
  split_ifs <;> simp_all

theorem AppCredentials.Defaultify_other (endpoint : oauth2.Endpoint) (ac : AppCredentials) :
    (ac.Defaultify endpoint).ClientID = ac.ClientID ∧
      (ac.Defaultify endpoint).ClientSecret = ac.ClientSecret ∧
      (ac.Defaultify endpoint).Scopes = ac.Scopes ∧
      (ac.Defaultify endpoint).RedirectURIs = ac.RedirectURIs ∧
      (ac.Defaultify endpoint).Service = ac.Service := by
  unfold AppCredentials.Defaultify
  simp only [len_eq_zero_iff]
  split_ifs <;> simp_all

theorem AppCredentials.Config_fields (c : AppCredentials) :
    c.Config.ClientID = c.ClientID ∧ c.Config.ClientSecret = c.ClientSecret ∧
      c.Config.Scopes = c.Scopes ∧ c.Config.Endpoint.AuthURL = c.AuthURI ∧
      c.Config.Endpoint.TokenURL = c.TokenURI := by
  unfold AppCredentials.Config
  cases c.RedirectURIs <;> simp

theorem AppCredentialsWrapper.Config_selected (endpoint : oauth2.Endpoint)
    (w : AppCredentialsWrapper) (c : AppCredentials)
    (h : w.Web = some c ∨ (w.Web = none ∧ w.Installed = some c)) :
    w.Config endpoint = (some (c.Defaultify endpoint).Config, none) := by
  unfold AppCredentialsWrapper.Config
  rcases h with h | ⟨h1, h2⟩
  · simp [h]
  · simp [h1, h2]


/-- C3, as stated, fails: the envelope whose only shape is a Facebook credential with empty
`auth_uri` and `token_uri` yields a config whose endpoint is the Facebook endpoint, not the
empty addresses of the input. -/
theorem C3_facebook_endpoint_differs :
    AppCredentialsWrapper.Config facebook.Endpoint
        { Web := some examples.facebookBare, Installed := none } =
      (some { ClientID := "id", ClientSecret := "secret", RedirectURL := "", Scopes := ["email"],
              Endpoint := { AuthURL := "https://www.facebook.com/v3.2/dialog/oauth",
                            TokenURL := "https://graph.facebook.com/v3.2/oauth/access_token" } },
        none) ∧
      examples.facebookBare.AuthURI = "" ∧ examples.facebookBare.TokenURI = "" ∧
      ¬ ∃ cfg : oauth2.Config,
        AppCredentialsWrapper.Config facebook.Endpoint
            { Web := some examples.facebookBare, Installed := none } = (some cfg, none) ∧
          cfg.Endpoint.AuthURL = examples.facebookBare.AuthURI ∧
          cfg.Endpoint.TokenURL = examples.facebookBare.TokenURI := by
  refine ⟨by decide, by decide, by decide, ?_⟩
  rintro ⟨cfg, h, ha, -⟩
  have h2 : AppCredentialsWrapper.Config facebook.Endpoint
      { Web := some examples.facebookBare, Installed := none } =
      (some (examples.facebookBare.Defaultify facebook.Endpoint).Config, none) := rfl
  rw [h2] at h
  have h3 : cfg = (examples.facebookBare.Defaultify facebook.Endpoint).Config := by
    simpa using h.symm
  subst h3
  revert ha
  decide

/-- C3, amended: for every envelope in which exactly one of `web` and `installed` is
populated, `AppCredentialsWrapper.Config` succeeds, and the config has the `client_id`,
`client_secret` and `scopes` of the populated shape; its `AuthURL` is the shape's `auth_uri`
and its `TokenURL` the shape's `token_uri`, except that for the service "facebook" an empty
`auth_uri` (an empty `token_uri`) is replaced by the Facebook endpoint's address. -/
theorem AppCredentialsWrapper.Config_single_shape (endpoint : oauth2.Endpoint)
    (w : AppCredentialsWrapper) (c : AppCredentials)
    (h : (w.Web = some c ∧ w.Installed = none) ∨ (w.Web = none ∧ w.Installed = some c)) :
    ∃ cfg : oauth2.Config, w.Config endpoint = (some cfg, none) ∧
      cfg.ClientID = c.ClientID ∧ cfg.ClientSecret = c.ClientSecret ∧ cfg.Scopes = c.Scopes ∧
      cfg.Endpoint.AuthURL =
        (if c.Service = "facebook" ∧ c.AuthURI = "" then endpoint.AuthURL else c.AuthURI) ∧
      cfg.Endpoint.TokenURL =
        (if c.Service = "facebook" ∧ c.TokenURI = "" then endpoint.TokenURL else c.TokenURI) := by
  refine ⟨(c.Defaultify endpoint).Config, ?_, ?_⟩
  · exact AppCredentialsWrapper.Config_selected endpoint w c
      (h.elim (fun h => Or.inl h.1) (fun h => Or.inr h))
  · obtain ⟨h1, h2, h3, h4, h5⟩ := AppCredentials.Config_fields (c.Defaultify endpoint)
    obtain ⟨d1, d2, d3, -, -⟩ := AppCredentials.Defaultify_other endpoint c
    rw [h1, h2, h3, h4, h5, d1, d2, d3, AppCredentials.Defaultify_AuthURI,
      AppCredentials.Defaultify_TokenURI]
    exact ⟨rfl, rfl, rfl, rfl, rfl⟩

/-- Witness of C3, amended: the envelope of the scenario of section 8, `installed` only. -/
theorem AppCredentialsWrapper.Config_single_shape_witness :
    ((({ Web := none, Installed := some examples.installedX } : AppCredentialsWrapper).Web =
          some examples.installedX ∧
        ({ Web := none, Installed := some examples.installedX } : AppCredentialsWrapper).Installed =
          none) ∨
      (({ Web := none, Installed := some examples.installedX } : AppCredentialsWrapper).Web = none ∧
        ({ Web := none, Installed := some examples.installedX } : AppCredentialsWrapper).Installed =
          some examples.installedX)) ∧
    ∃ cfg : oauth2.Config,
      AppCredentialsWrapper.Config facebook.Endpoint
          { Web := none, Installed := some examples.installedX } = (some cfg, none) ∧
      cfg.ClientID = examples.installedX.ClientID ∧
      cfg.ClientSecret = examples.installedX.ClientSecret ∧
      cfg.Scopes = examples.installedX.Scopes ∧
      cfg.Endpoint.AuthURL =
        (if examples.installedX.Service = "facebook" ∧ examples.installedX.AuthURI = "" then
          facebook.Endpoint.AuthURL else examples.installedX.AuthURI) ∧
      cfg.Endpoint.TokenURL =
        (if examples.installedX.Service = "facebook" ∧ examples.installedX.TokenURI = "" then
          facebook.Endpoint.TokenURL else examples.installedX.TokenURI) :=
  ⟨Or.inr ⟨rfl, rfl⟩,
    AppCredentialsWrapper.Config_single_shape facebook.Endpoint
      { Web := none, Installed := some examples.installedX } examples.installedX
      (Or.inr ⟨rfl, rfl⟩)⟩

/-- C4: when the credential that `AppCredentialsWrapper.Config` selects (`web` if populated,
else `installed`) has empty `auth_uri` and `token_uri`, the call succeeds; if the service is
"facebook" the config's `AuthURL` and `TokenURL` are those of the Facebook endpoint, and if
the service is any other string both are empty. -/
theorem AppCredentialsWrapper.Config_empty_uris (endpoint : oauth2.Endpoint)
    (w : AppCredentialsWrapper) (c : AppCredentials)
    (hsel : w.Web = some c ∨ (w.Web = none ∧ w.Installed = some c))
    (hauth : c.AuthURI = "") (htoken : c.TokenURI = "") :
    ∃ cfg : oauth2.Config, w.Config endpoint = (some cfg, none) ∧
      (c.Service = "facebook" →
        cfg.Endpoint.AuthURL = endpoint.AuthURL ∧ cfg.Endpoint.TokenURL = endpoint.TokenURL) ∧
      (c.Service ≠ "facebook" → cfg.Endpoint.AuthURL = "" ∧ cfg.Endpoint.TokenURL = "") := by
  refine ⟨(c.Defaultify endpoint).Config,
    AppCredentialsWrapper.Config_selected endpoint w c hsel, ?_, ?_⟩
  · intro hs
    obtain ⟨-, -, -, h4, h5⟩ := AppCredentials.Config_fields (c.Defaultify endpoint)
    rw [h4, h5, AppCredentials.Defaultify_AuthURI, AppCredentials.Defaultify_TokenURI]
    simp [hs, hauth, htoken]
  · intro hs
    obtain ⟨-, -, -, h4, h5⟩ := AppCredentials.Config_fields (c.Defaultify endpoint)
    rw [h4, h5, AppCredentials.Defaultify_AuthURI, AppCredentials.Defaultify_TokenURI]
    simp [hs, hauth, htoken]

/-- Witness of C4: a Facebook credential without addresses, as the `web` shape. -/
theorem AppCredentialsWrapper.Config_empty_uris_witness :
    examples.facebookBare.AuthURI = "" ∧ examples.facebookBare.TokenURI = "" ∧
    examples.facebookBare.Service = "facebook" ∧
    ∃ cfg : oauth2.Config,
      AppCredentialsWrapper.Config facebook.Endpoint
          { Web := some examples.facebookBare, Installed := none } = (some cfg, none) ∧
      (examples.facebookBare.Service = "facebook" →
        cfg.Endpoint.AuthURL = facebook.Endpoint.AuthURL ∧
          cfg.Endpoint.TokenURL = facebook.Endpoint.TokenURL) ∧
      (examples.facebookBare.Service ≠ "facebook" →
        cfg.Endpoint.AuthURL = "" ∧ cfg.Endpoint.TokenURL = "") :=
  ⟨rfl, rfl, rfl,
    AppCredentialsWrapper.Config_empty_uris facebook.Endpoint
      { Web := some examples.facebookBare, Installed := none } examples.facebookBare
      (Or.inl rfl) rfl rfl⟩

/-- C5: for every envelope in which neither `web` nor `installed` is populated,
`AppCredentialsWrapper.Config` returns no config and the error "No OAuth2 config info". -/
theorem AppCredentialsWrapper.Config_neither (endpoint : oauth2.Endpoint)
    (w : AppCredentialsWrapper) (hweb : w.Web = none) (hinstalled : w.Installed = none) :
    w.Config endpoint = (none, some "No OAuth2 config info") := by
  unfold AppCredentialsWrapper.Config
  simp [hweb, hinstalled]

/-- Witness of C5: the empty envelope. -/
theorem AppCredentialsWrapper.Config_neither_witness :
    AppCredentialsWrapper.Config facebook.Endpoint { Web := none, Installed := none } =
      (none, some "No OAuth2 config info") :=
  AppCredentialsWrapper.Config_neither facebook.Endpoint { Web := none, Installed := none } rfl rfl

/-- C6, as stated, fails: an envelope with both shapes populated is accepted, and the config
is that of the `web` shape. -/
theorem C6_both_shapes_accepted :
    AppCredentialsWrapper.Config facebook.Endpoint
        { Web := some examples.webW, Installed := some examples.installedX } =
      (some { ClientID := "W", ClientSecret := "Z", RedirectURL := "https://r", Scopes := ["s2"],
              Endpoint := { AuthURL := "https://c", TokenURL := "https://d" } },
        none) := by
  decide

/-- C6, amended: for every envelope in which both `web` and `installed` are populated,
`AppCredentialsWrapper.Config` returns no error and the config of the `web` shape after
defaulting; the `installed` shape is ignored. -/
theorem AppCredentialsWrapper.Config_both (endpoint : oauth2.Endpoint)
    (w : AppCredentialsWrapper) (cw ci : AppCredentials)
    (hweb : w.Web = some cw) (hinstalled : w.Installed = some ci) :
    w.Config endpoint = (some (cw.Defaultify endpoint).Config, none) ∧
      w.Config endpoint =
        AppCredentialsWrapper.Config endpoint { Web := some cw, Installed := none } := by
  have _ := hinstalled
  unfold AppCredentialsWrapper.Config
  simp [hweb]

/-- Witness of C6, amended: a `web` and an `installed` credential together. -/
theorem AppCredentialsWrapper.Config_both_witness :
    AppCredentialsWrapper.Config facebook.Endpoint
        { Web := some examples.webW, Installed := some examples.installedX } =
      (some (examples.webW.Defaultify facebook.Endpoint).Config, none) ∧
    AppCredentialsWrapper.Config facebook.Endpoint
        { Web := some examples.webW, Installed := some examples.installedX } =
      AppCredentialsWrapper.Config facebook.Endpoint
        { Web := some examples.webW, Installed := none } :=
  AppCredentialsWrapper.Config_both facebook.Endpoint
    { Web := some examples.webW, Installed := some examples.installedX }
    examples.webW examples.installedX rfl rfl


/-- What `NewAppCredentialsWrapperFromBytes` does, by the error of the decoder: it panics
with a decode error, and returns the decoded envelope with a nil error otherwise. -/
theorem NewAppCredentialsWrapperFromBytes_outcome (unmarshal : Unmarshal) (data : Bytes) :
    (∀ e, (unmarshal data { Web := none, Installed := none }).2 = some e →
        NewAppCredentialsWrapperFromBytes unmarshal data = .panicked e) ∧
      ((unmarshal data { Web := none, Installed := none }).2 = none →
        NewAppCredentialsWrapperFromBytes unmarshal data =
          .returned ((unmarshal data { Web := none, Installed := none }).1, none)) := by
  unfold NewAppCredentialsWrapperFromBytes
  rcases hu : unmarshal data { Web := none, Installed := none } with ⟨acw, err⟩
  constructor
  · intro e he
    simp only at he
    subst he
    simp [hu]
  · intro he
    simp only at he
    subst he
    simp [hu]

/-- C9, the code at a failing input: on the document that ends after its opening brace, which
`json.Unmarshal` rejects with "unexpected end of JSON input",
`NewAppCredentialsWrapperFromBytes` does not return that error: it panics with it. -/
theorem NewAppCredentialsWrapperFromBytes_truncated_panics :
    (examples.unmarshal (multiservice.bytes examples.truncated)
        { Web := none, Installed := none }).2 = some "unexpected end of JSON input" ∧
      NewAppCredentialsWrapperFromBytes examples.unmarshal
          (multiservice.bytes examples.truncated) =
        .panicked "unexpected end of JSON input" ∧
      ∀ r, NewAppCredentialsWrapperFromBytes examples.unmarshal
          (multiservice.bytes examples.truncated) ≠ .returned r := by
  have h := (NewAppCredentialsWrapperFromBytes_outcome examples.unmarshal
    (multiservice.bytes examples.truncated)).1 "unexpected end of JSON input" rfl
  refine ⟨rfl, h, ?_⟩
  intro r hr
  rw [h] at hr
  cases hr

end oauth2more

namespace multiservice

open oauth2more

/-! ## The manager -/

/-- C1: for a manager with both stores set, a failing config lookup is returned as it is,
with no client and without a token lookup; a failing token lookup after a successful
config lookup is returned as it is, with no client; and a client comes back without error
exactly when both lookups succeed. -/
theorem OAuth2Manager.GetClient_lookups {S CM Ctx : Type} (d : ConfigMoreSetDecls S CM)
    (cb : OAuth2Manager S) (configSet : S) (tokenSet : multiservice.TokenSet) (ctx : Ctx)
    (serviceKey : String)
    (hconfig : cb.ConfigSet = some configSet) (htoken : cb.TokenSet = some tokenSet) :
    (∀ e, d.Get configSet serviceKey = .error e →
        cb.GetClient d ctx serviceKey = ((none, some e), [StoreCall.Get serviceKey])) ∧
      (∀ cm e', d.Get configSet serviceKey = .ok cm →
        (tokenSet.GetToken serviceKey).2 = some e' →
        cb.GetClient d ctx serviceKey =
          ((none, some e'), [StoreCall.Get serviceKey, StoreCall.GetToken serviceKey])) ∧
      ((∃ client, (cb.GetClient d ctx serviceKey).1 = (some client, none)) ↔
        ((∃ cm, d.Get configSet serviceKey = .ok cm) ∧
          (tokenSet.GetToken serviceKey).2 = none)) := by
  rcases hg : d.Get configSet serviceKey with e | cm
  · simp [OAuth2Manager.GetClient, hconfig, htoken, hg]
  · rcases ht : tokenSet.GetToken serviceKey with ⟨tok, err⟩
    cases err with
    | none => simp [OAuth2Manager.GetClient, hconfig, htoken, hg, ht]
    | some e' => simp [OAuth2Manager.GetClient, hconfig, htoken, hg, ht]

/-- Witness of C1: a manager with a config for "svc" and a token store without tokens. -/
theorem OAuth2Manager.GetClient_lookups_witness :
    OAuth2Manager.GetClient examples.decls
        { ConfigSet := some examples.oneConfig, TokenSet := some examples.noToken } () "svc" =
      ((none, some "token not found"), [StoreCall.Get "svc", StoreCall.GetToken "svc"]) :=
  (OAuth2Manager.GetClient_lookups examples.decls
    { ConfigSet := some examples.oneConfig, TokenSet := some examples.noToken }
    examples.oneConfig examples.noToken () "svc" rfl rfl).2.1
    { config := examples.installedX.Config } "token not found" rfl rfl

/-- C2: for a manager whose config store or token store is unset, `GetClient` returns an
error and no client, and performs no lookup on either store. -/
theorem OAuth2Manager.GetClient_unset {S CM Ctx : Type} (d : ConfigMoreSetDecls S CM)
    (cb : OAuth2Manager S) (ctx : Ctx) (serviceKey : String)
    (h : cb.ConfigSet = none ∨ cb.TokenSet = none) :
    ∃ e, cb.GetClient d ctx serviceKey = ((none, some e), []) ∧
      (e = "OAuth2Manager.ConfigSet == nil" ∨ e = "OAuth2Manager.TokenSet == nil") := by
  unfold OAuth2Manager.GetClient
  rcases hc : cb.ConfigSet with _ | configSet
  · exact ⟨_, rfl, Or.inl rfl⟩
  · rcases h with h | h
    · rw [hc] at h; cases h
    · simp only [h]
      exact ⟨_, rfl, Or.inr rfl⟩

/-- Witness of C2: a manager with a config store and no token store. -/
theorem OAuth2Manager.GetClient_unset_witness :
    ∃ e, OAuth2Manager.GetClient examples.decls
        { ConfigSet := some examples.oneConfig, TokenSet := none } () "svc" =
          ((none, some e), []) ∧
      (e = "OAuth2Manager.ConfigSet == nil" ∨ e = "OAuth2Manager.TokenSet == nil") :=
  OAuth2Manager.GetClient_unset examples.decls
    { ConfigSet := some examples.oneConfig, TokenSet := none } () "svc" (Or.inr rfl)

/-! ## The provider registry -/

/-- C10: when the lookup of the name fails, `NewClientUtilForProviderTypeString` returns the
RingCentral object and a nil error; when it succeeds with `p`, it returns what
`NewClientUtilForProviderType` returns for `p`, which is the object of the provider for
each of Aha, Facebook, Google and RingCentral, and an error without object for any other
`p`. The four constants are distinct, as the `switch` over them requires. -/
theorem NewClientUtilForProviderTypeString_result {P : Type} [DecidableEq P]
    (d : ProviderDecls P) (providerTypeString : String)
    (hdistinct : [d.Aha, d.Facebook, d.Google, d.RingCentral].Nodup) :
    (∀ e, (d.ProviderStringToConst providerTypeString).2 = some e →
        NewClientUtilForProviderTypeString d providerTypeString =
          (some .ringcentralClientUtil, none)) ∧
      (∀ p, d.ProviderStringToConst providerTypeString = (p, none) →
        NewClientUtilForProviderTypeString d providerTypeString =
          NewClientUtilForProviderType d p) ∧
      NewClientUtilForProviderType d d.Aha = (some .ahaClientUtil, none) ∧
      NewClientUtilForProviderType d d.Facebook = (some .facebookClientUtil, none) ∧
      NewClientUtilForProviderType d d.Google = (some .googleClientUtil, none) ∧
      NewClientUtilForProviderType d d.RingCentral = (some .ringcentralClientUtil, none) ∧
      (∀ p, p ∉ [d.Aha, d.Facebook, d.Google, d.RingCentral] →
        ∃ e, NewClientUtilForProviderType d p = (none, some e)) := by
  simp only [List.nodup_cons, List.mem_cons, List.mem_singleton, List.not_mem_nil,
    not_or, or_false, List.nodup_nil, and_true] at hdistinct
  obtain ⟨⟨h1, h2, h3⟩, ⟨h4, h5⟩, h6, -⟩ := hdistinct
  refine ⟨?_, ?_, ?_, ?_, ?_, ?_, ?_⟩
  · intro e he
    unfold NewClientUtilForProviderTypeString
    rcases hp : d.ProviderStringToConst providerTypeString with ⟨p, err⟩
    rw [hp] at he
    simp only at he
    subst he
    rfl
  · intro p hp
    unfold NewClientUtilForProviderTypeString
    rw [hp]
  · simp [NewClientUtilForProviderType]
  · simp [NewClientUtilForProviderType, Ne.symm h1]
  · simp [NewClientUtilForProviderType, Ne.symm h2, Ne.symm h4]
  · simp [NewClientUtilForProviderType, Ne.symm h3, Ne.symm h5, Ne.symm h6]
  · intro p hp
    simp only [List.mem_cons, List.mem_singleton, List.not_mem_nil, or_false, not_or] at hp
    obtain ⟨p1, p2, p3, p4⟩ := hp
    exact ⟨"Cannot find ClientUtil for provider type [" ++ d.String p ++ "]",
      by simp [NewClientUtilForProviderType, p1, p2, p3, p4]⟩

/-- Witness of C10: an unknown name falls back to the RingCentral object. -/
theorem NewClientUtilForProviderTypeString_result_witness :
    NewClientUtilForProviderTypeString examples.providerDecls "Google" =
      (some .ringcentralClientUtil, none) :=
  (NewClientUtilForProviderTypeString_result examples.providerDecls "Google"
    (by decide)).1 "provider not found" rfl

/-! ## Population from the environment -/

theorem EnvOAuth2ConfigMap.range_cons {R S CM : Type} (re : regexp.Package R)
    (d : ConfigMoreSetDecls S CM) (rx : R) (pair : osutil.EnvVar) (env : List osutil.EnvVar)
    (cfgs : S) :
    EnvOAuth2ConfigMap.range re d rx (pair :: env) cfgs =
      if 0 < (re.FindStringSubmatch rx (strings.TrimSpace pair.Key)).length then
        match (re.FindStringSubmatch rx (strings.TrimSpace pair.Key)).get? 1 with
        | none => .panicked "runtime error: index out of range [1] with length 1"
        | some key =>
          match (d.AddConfigMoreJson cfgs key (bytes pair.Value)).2 with
          | some err => .returned (none, some err)
          | none =>
            EnvOAuth2ConfigMap.range re d rx env
              (d.AddConfigMoreJson cfgs key (bytes pair.Value)).1
      else EnvOAuth2ConfigMap.range re d rx env cfgs := by
  rfl

theorem EnvOAuth2ConfigMap.range_append {R S CM : Type} (re : regexp.Package R)
    (d : ConfigMoreSetDecls S CM) (rx : R) (pre rest : List osutil.EnvVar) :
    ∀ cfgs0 cfgs : S,
      EnvOAuth2ConfigMap.range re d rx pre cfgs0 = .returned (some cfgs, none) →
      EnvOAuth2ConfigMap.range re d rx (pre ++ rest) cfgs0 =
        EnvOAuth2ConfigMap.range re d rx rest cfgs := by
  induction pre with
  | nil =>
    intro cfgs0 cfgs h
    simp only [EnvOAuth2ConfigMap.range, Outcome.returned.injEq, Prod.mk.injEq,
      Option.some.injEq, and_true] at h
    subst h
    rfl
  | cons p pre ih =>
    intro cfgs0 cfgs h
    rw [List.cons_append, EnvOAuth2ConfigMap.range_cons]
    rw [EnvOAuth2ConfigMap.range_cons] at h
    by_cases hlen : 0 < (re.FindStringSubmatch rx (strings.TrimSpace p.Key)).length
    · rw [if_pos hlen] at h ⊢
      rcases hm : (re.FindStringSubmatch rx (strings.TrimSpace p.Key)).get? 1 with _ | key
      · rw [hm] at h
        cases h
      · rw [hm] at h
        simp only [] at h ⊢
        rcases he : (d.AddConfigMoreJson cfgs0 key (bytes p.Value)).2 with _ | err
        · rw [he] at h
          exact ih _ _ h
        · rw [he] at h
          simp at h
    · rw [if_neg hlen] at h ⊢
      exact ih _ _ h

/-- C7, as stated, fails: with a valid document under `PREFIXa` and a truncated one under
`PREFIXb`, the call returns the decode error and no store at all, although the first pair
alone populates key "a". -/
theorem C7_no_store_on_error :
    EnvOAuth2ConfigMap examples.regexpPackage examples.decls
        [{ Key := "PREFIXa", Value := examples.googleCreds },
          { Key := "PREFIXb", Value := examples.truncated }] "PREFIX" =
      .returned (none, some "unexpected end of JSON input") ∧
    ∃ cfgs : ConfigMoreSet,
      EnvOAuth2ConfigMap examples.regexpPackage examples.decls
          [{ Key := "PREFIXa", Value := examples.googleCreds }] "PREFIX" =
        .returned (some cfgs, none) ∧
      cfgs.Get "a" = .ok { config := examples.installedX.Config } :=
  ⟨rfl, _, rfl, rfl⟩

/-- C7, amended: when the expression compiles, the pairs of `pre` are processed without
error and leave the store `cfgs`, and the next pair matches with group `key` and its value
fails to parse with error `e`, `EnvOAuth2ConfigMap` returns `e` whatever pairs follow, and it
returns no store: the entries of the pairs before are not handed to the caller. -/
theorem EnvOAuth2ConfigMap_first_error {R S CM : Type} (re : regexp.Package R)
    (d : ConfigMoreSetDecls S CM) (rx : R) (pfx : String) (pre post : List osutil.EnvVar)
    (pair : osutil.EnvVar) (cfgs : S) (key : String) (e : Error)
    (hcompile : re.Compile ("^" ++ pfx ++ "(.*)") = .ok rx)
    (hpre : EnvOAuth2ConfigMap re d pre pfx = .returned (some cfgs, none))
    (hmatch : (re.FindStringSubmatch rx (strings.TrimSpace pair.Key)).get? 1 = some key)
    (herr : (d.AddConfigMoreJson cfgs key (bytes pair.Value)).2 = some e) :
    EnvOAuth2ConfigMap re d (pre ++ pair :: post) pfx = .returned (none, some e) := by
  unfold EnvOAuth2ConfigMap at hpre ⊢
  simp only [hcompile] at hpre ⊢
  rw [EnvOAuth2ConfigMap.range_append re d rx pre (pair :: post) _ cfgs hpre,
    EnvOAuth2ConfigMap.range_cons]
  have hlen : 0 < (re.FindStringSubmatch rx (strings.TrimSpace pair.Key)).length := by
    obtain ⟨h, -⟩ := List.get?_eq_some.mp hmatch
    omega
  rw [if_pos hlen]
  simp only [hmatch, herr]

/-- Witness of C7, amended: the two pairs of the scenario of section 8 of the spec. -/
theorem EnvOAuth2ConfigMap_first_error_witness :
    EnvOAuth2ConfigMap examples.regexpPackage examples.decls
        ([{ Key := "PREFIXa", Value := examples.googleCreds }] ++
          { Key := "PREFIXb", Value := examples.truncated } ::
            [{ Key := "PREFIXc", Value := examples.googleCreds }]) "PREFIX" =
      .returned (none, some "unexpected end of JSON input") :=
  EnvOAuth2ConfigMap_first_error examples.regexpPackage examples.decls "PREFIX" "PREFIX"
    [{ Key := "PREFIXa", Value := examples.googleCreds }]
    [{ Key := "PREFIXc", Value := examples.googleCreds }]
    { Key := "PREFIXb", Value := examples.truncated }
    (ConfigMoreSet.AddConfigMoreJson examples.unmarshal facebook.Endpoint NewConfigMoreSet "a"
      (bytes examples.googleCreds)).1
    "b" "unexpected end of JSON input" rfl rfl rfl rfl

theorem literalFind_shape (lit s : String) :
    (regexp.literalFind lit s = [] ∧ (regexp.literalFind lit s).get? 1 = none) ∨
      ∃ a k, regexp.literalFind lit s = [a, k] := by
  unfold regexp.literalFind
  cases regexp.afterLiteral lit.data s.data with
  | none => exact Or.inl ⟨rfl, rfl⟩
  | some rest => exact Or.inr ⟨_, _, rfl⟩

theorem Config_shape (endpoint : oauth2.Endpoint) (w : AppCredentialsWrapper) :
    (∃ cfg, w.Config endpoint = (some cfg, none)) ∨ ∃ e, w.Config endpoint = (none, some e) := by
  unfold AppCredentialsWrapper.Config
  cases w.Web with
  | some c => exact Or.inl ⟨_, rfl⟩
  | none =>
    cases w.Installed with
    | some c => exact Or.inl ⟨_, rfl⟩
    | none => exact Or.inr ⟨_, rfl⟩

theorem NewConfigMoreFromJSON_shape (unmarshal : Unmarshal) (endpoint : oauth2.Endpoint)
    (val : Bytes) :
    (∃ cm, NewConfigMoreFromJSON unmarshal endpoint val = (some cm, none)) ∨
      ∃ e, NewConfigMoreFromJSON unmarshal endpoint val = (none, some e) := by
  unfold NewConfigMoreFromJSON
  rcases hu : unmarshal val { Web := none, Installed := none } with ⟨acw, err⟩
  cases err with
  | some e => exact Or.inr ⟨e, rfl⟩
  | none =>
    rcases Config_shape endpoint acw with ⟨cfg, hc⟩ | ⟨e, hc⟩
    · exact Or.inl ⟨{ config := cfg }, by simp [hc]⟩
    · exact Or.inr ⟨e, by simp [hc]⟩

theorem NewConfigMoreFromJSON_ok (unmarshal : Unmarshal) (endpoint : oauth2.Endpoint)
    (val : Bytes) (h : (NewConfigMoreFromJSON unmarshal endpoint val).2 = none) :
    ∃ cm, NewConfigMoreFromJSON unmarshal endpoint val = (some cm, none) := by
  rcases NewConfigMoreFromJSON_shape unmarshal endpoint val with hc | ⟨e, he⟩
  · exact hc
  · rw [he] at h
    cases h

theorem AddConfigMoreJson_ok (unmarshal : Unmarshal) (endpoint : oauth2.Endpoint)
    (cfgs : ConfigMoreSet) (key : String) (val : Bytes) (cm : ConfigMore)
    (h : NewConfigMoreFromJSON unmarshal endpoint val = (some cm, none)) :
    ConfigMoreSet.AddConfigMoreJson unmarshal endpoint cfgs key val =
      ({ ConfigMoresMap := fun k => if k = key then some cm else cfgs.ConfigMoresMap k }, none) := by
  unfold ConfigMoreSet.AddConfigMoreJson
  rw [h]

theorem storeKey_of_find (pfx key : String) :
    (regexp.literalFind pfx (strings.TrimSpace key) = [] ∧ storeKey pfx key = none) ∨
      ∃ a k, regexp.literalFind pfx (strings.TrimSpace key) = [a, k] ∧
        storeKey pfx key = some k := by
  unfold storeKey
  rcases literalFind_shape pfx (strings.TrimSpace key) with ⟨h1, h2⟩ | ⟨a, k, h⟩
  · exact Or.inl ⟨h1, h2⟩
  · exact Or.inr ⟨a, k, h, by rw [h]; rfl⟩

/-- The store the loop leaves when every matching value parses: under each key the parsed
value of the last pair stored under it, and the entry it had before when there is none. -/
theorem EnvOAuth2ConfigMap.range_store {R : Type} (re : regexp.Package R) (rx : R)
    (unmarshal : Unmarshal) (endpoint : oauth2.Endpoint) (pfx : String)
    (hliteral : ∀ s, re.FindStringSubmatch rx s = regexp.literalFind pfx s)
    (env : List osutil.EnvVar) :
    ∀ cfgs0 : ConfigMoreSet,
      (∀ pair ∈ env, (storeKey pfx pair.Key).isSome →
        (NewConfigMoreFromJSON unmarshal endpoint (bytes pair.Value)).2 = none) →
      ∃ cfgs : ConfigMoreSet,
        EnvOAuth2ConfigMap.range re (configMoreSetDecls unmarshal endpoint) rx env cfgs0 =
          .returned (some cfgs, none) ∧
        ∀ k, cfgs.ConfigMoresMap k =
          match (env.filter (fun pair => storeKey pfx pair.Key = some k)).getLast? with
          | some pair => (NewConfigMoreFromJSON unmarshal endpoint (bytes pair.Value)).1
          | none => cfgs0.ConfigMoresMap k := by
  induction env with
  | nil =>
    intro cfgs0 _
    exact ⟨cfgs0, rfl, fun k => rfl⟩
  | cons p env ih =>
    intro cfgs0 hparse
    have hrest : ∀ pair ∈ env, (storeKey pfx pair.Key).isSome →
        (NewConfigMoreFromJSON unmarshal endpoint (bytes pair.Value)).2 = none :=
      fun pair hp => hparse pair (List.mem_cons_of_mem _ hp)
    rw [EnvOAuth2ConfigMap.range_cons, hliteral]
    rcases storeKey_of_find pfx p.Key with ⟨hf, hk⟩ | ⟨a, k0, hf, hk⟩
    · rw [hf]
      obtain ⟨cfgs, hr, hm⟩ := ih cfgs0 hrest
      refine ⟨cfgs, by simpa using hr, ?_⟩
      intro k
      rw [hm k, List.filter_cons_of_neg (by simp [hk])]
    · obtain ⟨cm, hcm⟩ := NewConfigMoreFromJSON_ok unmarshal endpoint (bytes p.Value)
        (hparse p (List.mem_cons_self _ _) (by simp [hk]))
      have hadd := AddConfigMoreJson_ok unmarshal endpoint cfgs0 k0 (bytes p.Value) cm hcm
      obtain ⟨cfgs, hr, hm⟩ := ih _ hrest
      refine ⟨cfgs, ?_, ?_⟩
      · rw [hf]
        simp only [List.length_cons, List.length_nil, Nat.zero_lt_succ, if_true,
          List.get?_cons_succ, List.get?_cons_zero, configMoreSetDecls, hadd]
        exact hr
      · intro k
        rw [hm k]
        by_cases hkk : k = k0
        · subst hkk
          rw [List.filter_cons_of_pos (by simp [hk]), List.getLast?_cons]
          cases (List.filter (fun pair => decide (storeKey pfx pair.Key = some k)) env).getLast? with
          | none => simp [hcm]
          | some q => rfl
        · rw [List.filter_cons_of_neg (by simp [hk]; exact fun h => hkk h.symm)]
          cases (List.filter (fun pair => decide (storeKey pfx pair.Key = some k)) env).getLast? with
          | none => simp [hkk]
          | some q => rfl

theorem afterLiteral_eq_some (lit s rest : List Char) :
    regexp.afterLiteral lit s = some rest ↔ s = lit ++ rest := by
  induction lit generalizing s with
  | nil => simp [regexp.afterLiteral, eq_comm]
  | cons a lit ih =>
    cases s with
    | nil => simp [regexp.afterLiteral]
    | cons b s =>
      simp only [regexp.afterLiteral, List.cons_append, List.cons.injEq]
      by_cases hab : a = b
      · simp [hab, ih]
      · simp only [hab, if_false]
        constructor
        · intro h; cases h
        · rintro ⟨h, -⟩; exact absurd h.symm hab

theorem takeWhile_eq_self_of_not_mem (l : List Char) (h : '\n' ∉ l) :
    l.takeWhile (fun c => c != '\n') = l := by
  rw [List.takeWhile_eq_self_iff]
  intro c hc
  simp only [bne_iff_ne, ne_eq]
  rintro rfl
  exact h hc

/-- For a key without surrounding white space and without line feed, the store key is what
follows the prefix: the pair is stored under `k` exactly when its key is `pfx ++ k`. -/
theorem storeKey_plain (pfx key k : String) (htrim : strings.TrimSpace key = key)
    (hline : '\n' ∉ key.data) : storeKey pfx key = some k ↔ key = pfx ++ k := by
  have happ : key = pfx ++ k ↔ key.data = pfx.data ++ k.data := by
    constructor
    · intro h; rw [h]; rfl
    · intro h
      exact String.ext h
  unfold storeKey regexp.literalFind
  rw [htrim, happ]
  rcases ha : regexp.afterLiteral pfx.data key.data with _ | rest
  · simp only [List.get?_nil]
    constructor
    · intro h; cases h
    · intro h
      rw [(afterLiteral_eq_some pfx.data key.data k.data).mpr h] at ha
      cases ha
  · have hkey := (afterLiteral_eq_some pfx.data key.data rest).mp ha
    have hrest : '\n' ∉ rest := fun h => hline (by rw [hkey]; exact List.mem_append_right _ h)
    simp only [takeWhile_eq_self_of_not_mem rest hrest, List.get?_cons_succ,
      List.get?_cons_zero, Option.some.injEq]
    rw [hkey]
    constructor
    · intro h; rw [← h]
    · intro h
      have := List.append_cancel_left h
      cases k
      simp only at this
      rw [this]

/-- C8, as stated, fails: with the empty prefix the pair with key " A" is stored under "A",
not under its full key; the store has an entry under "A" though no pair has that key, and
none under " A" though a pair has that key. -/
theorem C8_key_is_trimmed :
    ∃ cfgs : ConfigMoreSet,
      EnvOAuth2ConfigMap examples.regexpPackage examples.decls
          [{ Key := " A", Value := examples.googleCreds }] "" = .returned (some cfgs, none) ∧
      cfgs.Get "A" = .ok { config := examples.installedX.Config } ∧
      (¬ ∃ pair ∈ [({ Key := " A", Value := examples.googleCreds } : osutil.EnvVar)],
        pair.Key = "" ++ "A") ∧
      cfgs.Get " A" = .error "NotFoundError" ∧
      ∃ pair ∈ [({ Key := " A", Value := examples.googleCreds } : osutil.EnvVar)],
        pair.Key = "" ++ " A" :=
  ⟨_, rfl, rfl, by decide, rfl, by decide⟩

/-- C8, amended: when the expression compiles to one that matches as the literal prefix
`pfx` and every matching value parses, `EnvOAuth2ConfigMap` succeeds; the store has an entry
under `k` exactly when some pair has store key `k` (its key, trimmed of white space, starts
with `pfx`, and `k` is what follows up to the first line feed); the entry is the parsed value
of the last such pair in list order; and for a key without surrounding white space and
without line feed the store key is `k` exactly when the key is `pfx` followed by `k`. -/
theorem EnvOAuth2ConfigMap_store {R : Type} (re : regexp.Package R) (rx : R)
    (unmarshal : Unmarshal) (endpoint : oauth2.Endpoint) (env : List osutil.EnvVar)
    (pfx : String)
    (hcompile : re.Compile ("^" ++ pfx ++ "(.*)") = .ok rx)
    (hliteral : ∀ s, re.FindStringSubmatch rx s = regexp.literalFind pfx s)
    (hparse : ∀ pair ∈ env, (storeKey pfx pair.Key).isSome →
      (NewConfigMoreFromJSON unmarshal endpoint (bytes pair.Value)).2 = none) :
    ∃ cfgs : ConfigMoreSet,
      EnvOAuth2ConfigMap re (configMoreSetDecls unmarshal endpoint) env pfx =
        .returned (some cfgs, none) ∧
      (∀ k, (∃ cm, cfgs.Get k = .ok cm) ↔ ∃ pair ∈ env, storeKey pfx pair.Key = some k) ∧
      (∀ k pair,
        (env.filter (fun pair => storeKey pfx pair.Key = some k)).getLast? = some pair →
        ∃ cm, NewConfigMoreFromJSON unmarshal endpoint (bytes pair.Value) = (some cm, none) ∧
          cfgs.Get k = .ok cm) ∧
      (∀ key k, strings.TrimSpace key = key → '\n' ∉ key.data →
        (storeKey pfx key = some k ↔ key = pfx ++ k)) := by
  obtain ⟨cfgs, hr, hm⟩ := EnvOAuth2ConfigMap.range_store re rx unmarshal endpoint pfx hliteral
    env NewConfigMoreSet hparse
  have hlast : ∀ k pair,
      (env.filter (fun pair => storeKey pfx pair.Key = some k)).getLast? = some pair →
      ∃ cm, NewConfigMoreFromJSON unmarshal endpoint (bytes pair.Value) = (some cm, none) ∧
        cfgs.Get k = .ok cm := by
    intro k pair hl
    have hmem : pair ∈ env.filter (fun pair => storeKey pfx pair.Key = some k) :=
      List.mem_of_mem_getLast? hl
    rw [List.mem_filter] at hmem
    obtain ⟨hin, hk⟩ := hmem
    simp only [decide_eq_true_eq] at hk
    obtain ⟨cm, hcm⟩ := NewConfigMoreFromJSON_ok unmarshal endpoint (bytes pair.Value)
      (hparse pair hin (by simp [hk]))
    refine ⟨cm, hcm, ?_⟩
    have := hm k
    rw [hl] at this
    simp only [hcm] at this
    simp [ConfigMoreSet.Get, this]
  refine ⟨cfgs, ?_, ?_, hlast, fun key k ht hl => storeKey_plain pfx key k ht hl⟩
  · unfold EnvOAuth2ConfigMap
    simp only [hcompile]
    exact hr
  · intro k
    constructor
    · rintro ⟨cm, hcm⟩
      have := hm k
      rcases hl : (env.filter (fun pair => storeKey pfx pair.Key = some k)).getLast? with
        _ | pair
      · rw [hl] at this
        simp [ConfigMoreSet.Get, this, NewConfigMoreSet] at hcm
      · have hmem : pair ∈ env.filter (fun pair => storeKey pfx pair.Key = some k) :=
          List.mem_of_mem_getLast? hl
        rw [List.mem_filter] at hmem
        exact ⟨pair, hmem.1, by simpa using hmem.2⟩
    · rintro ⟨pair, hin, hk⟩
      have hne : env.filter (fun pair => storeKey pfx pair.Key = some k) ≠ [] := by
        intro h
        have : pair ∈ env.filter (fun pair => storeKey pfx pair.Key = some k) :=
          List.mem_filter.mpr ⟨hin, by simpa using hk⟩
        rw [h] at this
        cases this
      rcases hl : (env.filter (fun pair => storeKey pfx pair.Key = some k)).getLast? with
        _ | q
      · exact absurd (List.getLast?_eq_none_iff.mp hl) hne
      · obtain ⟨cm, -, hg⟩ := hlast k q hl
        exact ⟨cm, hg⟩

/-- Witness of C8, amended: the scenario of section 8 of the spec, `GOOGLE_CREDS` with the
empty prefix, is stored under its full key with client id "X". -/
theorem EnvOAuth2ConfigMap_store_witness :
    ∃ cfgs : ConfigMoreSet,
      EnvOAuth2ConfigMap examples.regexpPackage
          (configMoreSetDecls examples.unmarshal facebook.Endpoint)
          [{ Key := "GOOGLE_CREDS", Value := examples.googleCreds }] "" =
        .returned (some cfgs, none) ∧
      ∃ cm, cfgs.Get "GOOGLE_CREDS" = .ok cm ∧ cm.Config.ClientID = "X" := by
  obtain ⟨cfgs, hr, -, hlast, -⟩ := EnvOAuth2ConfigMap_store examples.regexpPackage ""
    examples.unmarshal facebook.Endpoint
    [{ Key := "GOOGLE_CREDS", Value := examples.googleCreds }] "" rfl (fun _ => rfl)
    (by
      intro pair hp _
      rw [List.mem_singleton] at hp
      subst hp
      rfl)
  obtain ⟨cm, hcm, hg⟩ := hlast "GOOGLE_CREDS"
    { Key := "GOOGLE_CREDS", Value := examples.googleCreds } (by decide)
  refine ⟨cfgs, hr, cm, hg, ?_⟩
  have h2 : NewConfigMoreFromJSON examples.unmarshal facebook.Endpoint
      (bytes examples.googleCreds) = (some { config := examples.installedX.Config }, none) := rfl
  have h3 : (bytes ({ Key := "GOOGLE_CREDS", Value := examples.googleCreds } : osutil.EnvVar).Value)
      = bytes examples.googleCreds := rfl
  rw [h3, h2] at hcm
  simp only [Prod.mk.injEq, Option.some.injEq, and_true] at hcm
  rw [← hcm]
  rfl

end multiservice

namespace oauth2more

/-! ## Authorization types -/

theorem int_one_to_six (a : Int) (hlow : 1 ≤ a) (hhigh : a ≤ 6) :
    a = 1 ∨ a = 2 ∨ a = 3 ∨ a = 4 ∨ a = 5 ∨ a = 6 := by
  omega

/-- For every value from `Basic` to `OAuth`, `AuthorizationType.String` returns the entry of
`authorizationTypes` at that index; the index is inside the array, so the call does not
panic. -/
theorem AuthorizationType.String_in_range (a : AuthorizationType) (hlow : Basic ≤ a)
    (hhigh : a ≤ OAuth) :
    ∃ name, authorizationTypes.get? a.toNat = some name ∧
      AuthorizationType.String a = .returned name := by
  rcases int_one_to_six a hlow hhigh with h | h | h | h | h | h <;> subst h <;>
    exact ⟨_, rfl, by decide⟩

/-- C11, the code at the failing input: for `Anonymous` the guard `Basic <= a` is false, so
`AuthorizationType.String` returns "%!AuthorizationType(0)" and not the entry "Anonymous"
that `authorizationTypes` holds at index 0; for the six other constants it returns the
English name. -/
theorem AuthorizationType.String_Anonymous :
    AuthorizationType.String Anonymous = .returned "%!AuthorizationType(0)" ∧
      authorizationTypes.get? Anonymous.toNat = some "Anonymous" ∧
      AuthorizationType.String Anonymous ≠ .returned "Anonymous" ∧
      AuthorizationType.String Basic = .returned "Basic" ∧
      AuthorizationType.String Bearer = .returned "Bearer" ∧
      AuthorizationType.String Digest = .returned "Digest" ∧
      AuthorizationType.String NTLM = .returned "NTLM" ∧
      AuthorizationType.String Negotiate = .returned "Negotiate" ∧
      AuthorizationType.String OAuth = .returned "OAuth" := by
  refine ⟨by decide, by decide, by decide, by decide, by decide, by decide, by decide,
    by decide, by decide⟩

end oauth2more
